import Mathlib

/-!
Verification of the FMEM fixed-region allocator (khenidak/memthing).

Shallow embedding of `src/fmem/fmem.c`, `src/fmem/fmem.h` and
`src/list/list.c`.  The region is modelled as the list of its pages in
memory order (the circular intrusive list of the C code always equals
memory order; a node's address is the sum of the sizes of the pages
before it, the head page sitting at region offset 0).  Machine integers
are modelled as `Nat` with an explicit `% 2^32` (resp. `% 2^64`)
wherever the C code can wrap a `uint32_t` (resp. `size_t`) value.

Structure sizes are those of the reference LP64 build:
`sizeof(struct fmem_page) = 24` (uint32 flags + uint32 size + two
8-byte pointers) and `sizeof(struct fmem) = 72` (two size_t, two
uint32, four pointers, one function pointer, one uint32 lock, padded).

The build modelled is the unit-testing build (`__UNIT_TESTING__` and
`__BAD_MEM__` defined): poison checks are active and a magic mismatch
returns the `EE_BAD_MEM` sentinel.  The committer callback is modelled
as `Option Bool`: `none` means no committer installed, `some ok` means
a committer whose calls succeed iff `ok` (any non-negative C return is
success).  The spinlock and the raw byte representation are not
modelled; all operations are already serialized here.
-/

/-- 2^32, the modulus of `uint32_t` arithmetic. -/
def U32 : Nat := 4294967296

/-- 2^64, the modulus of `size_t` arithmetic on the reference LP64 build. -/
def U64 : Nat := 18446744073709551616

/-- `sizeof(struct fmem_page)` — `PAGE_OVERHEAD` in fmem.c. -/
def PAGE_OVERHEAD : Nat := 24

/-- `sizeof(struct fmem)` — the accounting block stored in the head page. -/
def FMEM_SIZE : Nat := 72

/-- `sizeof(struct list_head)`: two 8-byte pointers. -/
def LIST_HEAD_SIZE : Nat := 16

/-- Byte offset of the `list` field inside `struct fmem_page`
(after the uint32 `flags` and uint32 `size`). -/
def LINKS_OFF : Nat := 8

/-- `PAGE_REMAIN_FREE = 2 * sizeof(struct fmem_page)` (fmem.c line 16). -/
def PAGE_REMAIN_FREE : Nat := 2 * PAGE_OVERHEAD

/-- `#define CAN_NOT_FIT 0`. -/
def CAN_NOT_FIT : Nat := 0

/-- `#define FIT_AS_IS 1`. -/
def FIT_AS_IS : Nat := 1

/-- `#define FIT_WITH_CARVE 2`. -/
def FIT_WITH_CARVE : Nat := 2

/-- `#define POISON 0xBEEF`. -/
def POISON : Nat := 0xBEEF

/-- `#define DEFAULT_MIN_ALLOC sizeof(struct fmem_page)` (fmem.h). -/
def DEFAULT_MIN_ALLOC : Nat := PAGE_OVERHEAD

/-- `#define MIN_TOTAL_ALLOCATION 3*sizeof(struct fmem_page) + sizeof(struct fmem)`. -/
def MIN_TOTAL_ALLOCATION : Nat := 3 * PAGE_OVERHEAD + FMEM_SIZE

/-- `#define E_TOTAL_ALLOCATION_SIZE_TOO_SMALL -1` (fmem.h). -/
def E_TOTAL_ALLOCATION_SIZE_TOO_SMALL : Int := -1

/-- `#define E_COMMIT_FAILED -2` (fmem.h). -/
def E_COMMIT_FAILED : Int := -2

/-- `#define E_BAD_INIT_MEM -2` (fmem.h). -/
def E_BAD_INIT_MEM : Int := -2

/-- `#define FMEM_E_NOMEM -1` (fmem.h). -/
def FMEM_E_NOMEM : Int := -1

/-- `#define EE_BAD_MEM -2` (fmem.h, unit-testing build): corruption sentinel. -/
def EE_BAD_MEM : Int := -2

/-- A page header: `struct fmem_page`.  The two intrusive link fields are
not stored here; the linked list is represented by the position of the
page in the region's page list (list order always equals memory order in
fmem).  `flags` and `size` are `uint32_t` values. -/
structure FPage where
  flags : Nat
  size : Nat
deriving DecidableEq, Repr

/-- `fpage_actual`: `fpage->size - PAGE_OVERHEAD` in `uint32_t`
arithmetic (wraps when `size < PAGE_OVERHEAD`). -/
def fpage_actual (fpage : FPage) : Nat := (fpage.size + U32 - PAGE_OVERHEAD) % U32

/-- `fpage_can_fit` (fmem.c lines 34-42).  The comparison
`size_needed + PAGE_REMAIN_FREE >= actual` is carried out in `size_t`
arithmetic in the C code (`PAGE_REMAIN_FREE` is a `sizeof` expression),
so no wrap occurs in it. -/
def fpage_can_fit (fpage : FPage) (size_needed : Nat) : Nat :=
  let actual := fpage_actual fpage
  if size_needed > actual then CAN_NOT_FIT
  else if size_needed + PAGE_REMAIN_FREE ≥ actual then FIT_AS_IS
  else FIT_WITH_CARVE

/-- `fpage_set_magic` (fmem.c lines 66-70): clear the high 16 bits of
`flags`, then or the magic shifted left by 16. -/
def fpage_set_magic (fpage : FPage) (magic : Nat) : FPage :=
  { fpage with flags := (fpage.flags &&& 0xFFFF) ||| (magic <<< 16) }

/-- `fpage_get_magic`: `flags >> 16`. -/
def fpage_get_magic (fpage : FPage) : Nat := fpage.flags >>> 16

/-- `fpage_is_free` (fmem.c lines 77-80): bit 15 of `flags` is the busy
bit; the page is free when it is clear. -/
def fpage_is_free (fpage : FPage) : Bool :=
  if fpage.flags &&& (1 <<< 15) > 0 then false else true

/-- `fpage_set_busy`: or bit 15 into `flags`. -/
def fpage_set_busy (fpage : FPage) : FPage :=
  { fpage with flags := fpage.flags ||| (1 <<< 15) }

/-- `fpage_set_free`: and `flags` with `~(1 << 15)` as a `uint32_t`
mask, i.e. `0xFFFF7FFF`. -/
def fpage_set_free (fpage : FPage) : FPage :=
  { fpage with flags := fpage.flags &&& (U32 - 1 - (1 <<< 15)) }

/-- `fpage_carve` (fmem.c lines 48-59).  Returns the shrunk page, the
created page (its header is zeroed by `memset` before `size` is
assigned), and the byte offset of the created page relative to the
start of the carved page (`*created = start + fpage->size` after the
shrink).  The caller links the created page right after the carved one
(`list_add_after`); the list-level wrapper `fpage_carve_at` below does
that insertion. -/
def fpage_carve (fpage : FPage) (to_carve : Nat) : FPage × FPage × Nat :=
  let actual_needed := (to_carve + PAGE_OVERHEAD) % U32
  let shrunk : FPage := { fpage with size := (fpage.size + U32 - actual_needed) % U32 }
  let created : FPage := { flags := 0, size := actual_needed }
  (shrunk, created, shrunk.size)

/-- Byte offset of page `i` from the region base: pages are contiguous
in memory, in list order, the head page at offset 0. -/
def fmem_offset (ps : List FPage) (i : Nat) : Nat := ((ps.take i).map FPage.size).sum

/-- `fpage_carve` applied to page `i` of the region's page list,
including the `list_add_after` step: the created page is inserted
immediately after page `i`.  Also returns the created header and its
region offset. -/
def fpage_carve_at (ps : List FPage) (i : Nat) (to_carve : Nat) : List FPage × FPage × Nat :=
  let fpage := ps.getD i ⟨0, 0⟩
  let c := fpage_carve fpage to_carve
  (ps.take i ++ c.1 :: c.2.1 :: ps.drop (i + 1), c.2.1, fmem_offset ps i + c.2.2)

/-- `fpage_merge` (fmem.c lines 96-131) on the page list.  `prev` and
`next` are the circular-list neighbours of page `i` (for the pages of a
region, index arithmetic modulo the list length).  `prev == fpage`
(resp. `next == fpage`) holds exactly when the neighbour index equals
`i`.  Node removal (`list_remove_at`) is `eraseIdx` at the node's
current position; in the three-way branch `next` is removed first, so
the second erasure adjusts its index when `next` sat before `fpage`.
Returns the new list and the index of the surviving page. -/
def fpage_merge (ps : List FPage) (i : Nat) : List FPage × Nat :=
  let L := ps.length
  let pi := (i + L - 1) % L
  let ni := (i + 1) % L
  let fpage := ps.getD i ⟨0, 0⟩
  let prev := ps.getD pi ⟨0, 0⟩
  let next := ps.getD ni ⟨0, 0⟩
  if (pi ≠ i ∧ fpage_is_free prev = true) ∧ (ni ≠ i ∧ fpage_is_free next = true) then
    let merged := { prev with size := (prev.size + fpage.size + next.size) % U32 }
    let l1 := (ps.set pi merged).eraseIdx ni
    (l1.eraseIdx (if ni < i then i - 1 else i),
     pi - (if ni < pi then 1 else 0) - (if i < pi then 1 else 0))
  else if pi ≠ i ∧ fpage_is_free prev = true then
    let merged := { prev with size := (prev.size + fpage.size) % U32 }
    ((ps.set pi merged).eraseIdx i, pi - (if i < pi then 1 else 0))
  else if ni ≠ i ∧ fpage_is_free next = true then
    let merged := { fpage with size := (fpage.size + next.size) % U32 }
    ((ps.set i merged).eraseIdx ni, i - (if ni < i then 1 else 0))
  else (ps, i)

/-- The error outcomes of `fmem_create_new` (returned as casted negative
pointers in C; `fmemErrCode` below gives the numeric codes). -/
inductive FmemErr
  | tooSmall
  | badInitMem
  | commitFailed
deriving DecidableEq, Repr

/-- The numeric code each `fmem_create_new` error is returned as. -/
def fmemErrCode : FmemErr → Int
  | .tooSmall => E_TOTAL_ALLOCATION_SIZE_TOO_SMALL
  | .badInitMem => E_BAD_INIT_MEM
  | .commitFailed => E_COMMIT_FAILED

/-- `struct fmem`, the accounting block, together with the region's page
list.  The four opaque `userN` slots and the spinlock are not modelled
(no operation modelled here reads them).  `committer`: `none` = no
committer installed, `some ok` = committer installed, succeeding iff
`ok`. -/
structure Fmem where
  pages : List FPage
  total_size : Nat
  total_available : Nat
  alloc_objects : Nat
  min_alloc : Nat
  committer : Option Bool
deriving DecidableEq, Repr

/-- `fmem_create_new` (fmem.c lines 182-230), on a zeroed region of
`length` bytes.  The two size checks come first (the second one against
the caller-supplied `min_alloc`, before the clamp); then the head page
(busy, sized `PAGE_OVERHEAD + FMEM_SIZE`) and the main page (free, the
rest of the region, its `uint32_t` size field truncating `length -
head.size`) are written and both magics stamped.  If a committer is
installed, the region prefix is committed (the range itself is not
recorded here); a failing committer makes the call return
`E_COMMIT_FAILED`. -/
def fmem_create_new (length : Nat) (min_alloc : Nat) (committer : Option Bool) :
    Except FmemErr Fmem :=
  if length < MIN_TOTAL_ALLOCATION then .error .tooSmall
  else if length < min_alloc + 2 * PAGE_OVERHEAD + FMEM_SIZE then .error .badInitMem
  else
    let min_alloc' := if min_alloc < DEFAULT_MIN_ALLOC then DEFAULT_MIN_ALLOC else min_alloc
    let head_size := PAGE_OVERHEAD + FMEM_SIZE
    let fpage_head := fpage_set_magic (fpage_set_busy { flags := 0, size := head_size }) POISON
    let main_fpage := fpage_set_magic (fpage_set_free { flags := 0, size := (length - head_size) % U32 }) POISON
    let fm : Fmem := {
      pages := [fpage_head, main_fpage]
      total_size := length
      total_available := length - (2 * PAGE_OVERHEAD + FMEM_SIZE)
      alloc_objects := 0
      min_alloc := min_alloc'
      committer := committer }
    match committer with
    | some ok => if ok then .ok fm else .error .commitFailed
    | none => .ok fm

/-- Outcome of the first-fit walk of `fmem_alloc` over the pages after
the head: no candidate, a poison failure, or the first free page whose
fit status is not `CAN_NOT_FIT` (index relative to the walked list,
together with that fit status). -/
inductive WalkRes
  | noFit
  | poisoned
  | found (i : Nat) (fit : Nat)
deriving DecidableEq, Repr

/-- Shift a found index by one (the walk recursing past one page). -/
def walk_bump : WalkRes → WalkRes
  | .found i f => .found (i + 1) f
  | r => r

/-- The `list_for_each` walk of `fmem_alloc` (fmem.c lines 278-302):
poison-check every visited page, skip busy pages, skip `CAN_NOT_FIT`,
stop at the first page that fits (as is, or with carve). -/
def fmem_walk (need : Nat) : List FPage → WalkRes
  | [] => .noFit
  | fpage :: rest =>
    if fpage_get_magic fpage ≠ POISON then .poisoned
    else if fpage_is_free fpage = false then walk_bump (fmem_walk need rest)
    else if fpage_can_fit fpage need = CAN_NOT_FIT then walk_bump (fmem_walk need rest)
    else .found 0 (fpage_can_fit fpage need)

/-- One scatter/gather batch handed to the committer: the list of
`(region offset, byte length)` ranges the code filled in, and the
`count` argument it passed alongside them. -/
structure CommitCall where
  ranges : List (Nat × Nat)
  count : Nat
deriving DecidableEq, Repr

/-- Return value of `fmem_alloc`: a payload region offset, or one of the
negative sentinels (`FMEM_E_NOMEM`, `EE_BAD_MEM`, `E_COMMIT_FAILED`). -/
inductive AllocRet
  | mem (off : Nat)
  | nomem
  | badMem
  | commitFailed
deriving DecidableEq, Repr

/-- Result of `fmem_alloc`: the state after the call, the return value,
and the committer invocation it performed (if any). -/
structure AllocOut where
  st : Fmem
  ret : AllocRet
  commit : Option CommitCall
deriving DecidableEq, Repr

/-- `fmem_alloc` (fmem.c lines 257-346).  Size is clamped up to
`min_alloc`; a quick `total_available` check fails with NOMEM; the walk
selects a page; `FIT_AS_IS` takes the page whole, `FIT_WITH_CARVE`
carves its tail.  The selected page is marked busy and stamped,
`total_available` drops by the whole selected size and `alloc_objects`
rises.  With a committer installed, the carve path fills three ranges —
selected header, previous sibling header, next sibling link pair — but
passes a count of 1 (fmem.c line 333), while the as-is path submits the
selected header with count 1. -/
def fmem_alloc (s : Fmem) (size : Nat) : AllocOut :=
  let adjusted_alloc := if size < s.min_alloc then s.min_alloc else size
  if s.total_available < adjusted_alloc then
    { st := s, ret := .nomem, commit := none }
  else
    match fmem_walk adjusted_alloc (s.pages.drop 1) with
    | .poisoned => { st := s, ret := .badMem, commit := none }
    | .noFit => { st := s, ret := .nomem, commit := none }
    | .found j f =>
      let i := j + 1
      let fpage := s.pages.getD i ⟨0, 0⟩
      if f = FIT_AS_IS then
        let selected := fpage_set_magic (fpage_set_busy fpage) POISON
        let pages' := s.pages.set i selected
        let selOff := fmem_offset s.pages i
        { st := { s with
            pages := pages'
            total_available := (s.total_available + U64 - fpage.size) % U64
            alloc_objects := (s.alloc_objects + 1) % U32 }
          ret := if s.committer = some false then .commitFailed
                 else .mem (selOff + PAGE_OVERHEAD)
          commit := if s.committer.isSome then
                      some { ranges := [(selOff, PAGE_OVERHEAD)], count := 1 }
                    else none }
      else
        let c := fpage_carve_at s.pages i adjusted_alloc
        let selected := fpage_set_magic (fpage_set_busy c.2.1) POISON
        let pages' := c.1.set (i + 1) selected
        let selOff := c.2.2
        let prevOff := fmem_offset s.pages i
        let nextOff := if i + 2 < pages'.length then fmem_offset pages' (i + 2) else 0
        { st := { s with
            pages := pages'
            total_available := (s.total_available + U64 - c.2.1.size) % U64
            alloc_objects := (s.alloc_objects + 1) % U32 }
          ret := if s.committer = some false then .commitFailed
                 else .mem (selOff + PAGE_OVERHEAD)
          commit := if s.committer.isSome then
                      some { ranges := [(selOff, PAGE_OVERHEAD),
                                        (prevOff, PAGE_OVERHEAD),
                                        (nextOff + LINKS_OFF, LIST_HEAD_SIZE)]
                             count := 1 }
                    else none }

/-- Result of `fmem_free`: the state after the call and the `int64_t`
return value (freed byte count, or a negative sentinel). -/
structure FreeOut where
  st : Fmem
  ret : Int
deriving DecidableEq, Repr

/-- `fmem_free` (fmem.c lines 350-395) on the page at index `i` (the
page recovered from the freed pointer).  Poison-check first; then the
page size is captured, the busy bit cleared unconditionally, the page
merged with free neighbours, and the accounting updated
(`alloc_objects` is a `uint32_t` decrement, `total_available` a
`size_t` increment).  The three commit ranges of the C code target the
survivor header and the stale `prev`/`next` links of the freed node;
they are not recorded here, but a failing committer turns the return
value into `E_COMMIT_FAILED` (state already mutated). -/
def fmem_free (s : Fmem) (i : Nat) : FreeOut :=
  let fpage := s.pages.getD i ⟨0, 0⟩
  if fpage_get_magic fpage ≠ POISON then { st := s, ret := EE_BAD_MEM }
  else
    let to_free : Int := fpage.size
    let pages1 := s.pages.set i (fpage_set_free fpage)
    let m := fpage_merge pages1 i
    { st := { s with
        pages := m.1
        alloc_objects := (s.alloc_objects + U32 - 1) % U32
        total_available := (s.total_available + fpage.size) % U64 }
      ret := match s.committer with
             | none => to_free
             | some ok => if ok then to_free else E_COMMIT_FAILED }

/-- `fmem_commit_mem` (fmem.c lines 414-438).  `mem` is the payload
pointer (modelled as a region offset), `fpage` its page header (at
`mem - PAGE_OVERHEAD`).  Returns the `int64_t` result and the single
range submitted to the committer, if the call reached it. -/
def fmem_commit_mem (committer : Option Bool) (mem : Nat) (fpage : FPage) (len : Nat) :
    Int × Option (Nat × Nat) :=
  match committer with
  | none => (E_COMMIT_FAILED, none)
  | some ok =>
    if fpage_get_magic fpage ≠ POISON then (EE_BAD_MEM, none)
    else
      let page_size := fpage_actual fpage
      let len' := if len = 0 then page_size else len
      if mem + len' > mem - PAGE_OVERHEAD + PAGE_OVERHEAD + page_size then
        (E_COMMIT_FAILED, none)
      else if ok then ((len' : Int), some (mem, len'))
      else (E_COMMIT_FAILED, some (mem, len'))

/-- A client-visible allocator operation: an allocation of `n` bytes, or
the release of the payload of page `i` (a client can only ever hand
`fmem_free` a pointer inside the region after the head page, so the
step function below guards `1 ≤ i < pages.length`; the guarded index
may be any such page, busy or free — double frees included). -/
inductive FOp
  | alloc (n : Nat)
  | free (i : Nat)
deriving DecidableEq, Repr

/-- One allocator operation applied to a state (the returned value is
dropped; only the state evolution matters for the invariants). -/
def fmem_step (s : Fmem) : FOp → Fmem
  | .alloc n => (fmem_alloc s n).st
  | .free i => if 1 ≤ i ∧ i < s.pages.length then (fmem_free s i).st else s

/-- Run a sequence of allocator operations. -/
def fmem_run (s : Fmem) : List FOp → Fmem
  | [] => s
  | op :: ops => fmem_run (fmem_step s op) ops

/-- No two pages adjacent in memory are both free. -/
def no_adjacent_free (ps : List FPage) : Prop :=
  List.Chain' (fun a b => fpage_is_free a = false ∨ fpage_is_free b = false) ps

/-- The allocator invariant: the head page (index 0) exists and is busy,
and no two adjacent pages are both free. -/
def fmem_inv (s : Fmem) : Prop :=
  fpage_is_free (s.pages.getD 0 ⟨0, 0⟩) = false ∧ no_adjacent_free s.pages

/-! ### Helper lemmas: flag bits -/

theorem testBit_32768 (j : Nat) : Nat.testBit 32768 j = decide (j = 15) := by
  rw [(by decide : (32768 : Nat) = 2 ^ 15), Nat.testBit_two_pow]
  simp [eq_comm]

theorem lor_32768_land (f : Nat) : (f ||| 32768) &&& 32768 = 32768 := by
  apply Nat.eq_of_testBit_eq
  intro j
  rw [Nat.testBit_and, Nat.testBit_or, testBit_32768]
  rcases eq_or_ne j 15 with rfl | hj
  · simp
  · simp [hj]

theorem land_mask_land (f : Nat) : (f &&& 4294934527) &&& 32768 = 0 := by
  apply Nat.eq_of_testBit_eq
  intro j
  rw [Nat.testBit_and, Nat.testBit_and, testBit_32768, Nat.zero_testBit]
  rcases eq_or_ne j 15 with rfl | hj
  · simp [(by decide : Nat.testBit 4294934527 15 = false)]
  · simp [hj]

theorem set_magic_land_32768 (f m : Nat) :
    ((f &&& 65535) ||| (m <<< 16)) &&& 32768 = f &&& 32768 := by
  apply Nat.eq_of_testBit_eq
  intro j
  simp only [Nat.testBit_and, Nat.testBit_or, Nat.testBit_shiftLeft, testBit_32768]
  rcases eq_or_ne j 15 with rfl | hj
  · simp [(by decide : Nat.testBit 65535 15 = true), (by decide : ¬(16 ≤ 15))]
  · simp [hj]

theorem is_free_set_busy (p : FPage) : fpage_is_free (fpage_set_busy p) = false := by
  show (if (p.flags ||| 32768) &&& 32768 > 0 then false else true) = false
  rw [lor_32768_land]
  decide

theorem is_free_set_free (p : FPage) : fpage_is_free (fpage_set_free p) = true := by
  show (if (p.flags &&& 4294934527) &&& 32768 > 0 then false else true) = true
  rw [land_mask_land]
  decide

theorem is_free_set_magic (p : FPage) (m : Nat) :
    fpage_is_free (fpage_set_magic p m) = fpage_is_free p := by
  show (if ((p.flags &&& 65535) ||| (m <<< 16)) &&& 32768 > 0 then false else true)
      = fpage_is_free p
  rw [set_magic_land_32768]
  rfl

/-! ### Helper lemmas: list surgery -/

theorem list_getD_append (A R : List α) (d : α) (k : Nat) :
    (A ++ R).getD (A.length + k) d = R.getD k d := by
  induction A with
  | nil => simp
  | cons a A ih =>
    have : A.length + 1 + k = (A.length + k) + 1 := by omega
    simp only [List.cons_append, List.length_cons, this, List.getD_cons_succ]
    exact ih

theorem list_getD_append_left (A R : List α) (d : α) (k : Nat) (h : k < A.length) :
    (A ++ R).getD k d = A.getD k d := by
  induction A generalizing k with
  | nil => simp at h
  | cons a A ih =>
    cases k with
    | zero => simp
    | succ k =>
      simp only [List.cons_append, List.getD_cons_succ]
      exact ih k (by simpa using Nat.lt_of_succ_lt_succ h)

theorem list_set_append (A R : List α) (k : Nat) (x : α) :
    (A ++ R).set (A.length + k) x = A ++ R.set k x := by
  induction A with
  | nil => simp
  | cons a A ih =>
    have : A.length + 1 + k = (A.length + k) + 1 := by omega
    simp only [List.cons_append, List.length_cons, this, List.set_cons_succ]
    rw [ih]

theorem list_eraseIdx_append (A R : List α) (k : Nat) :
    (A ++ R).eraseIdx (A.length + k) = A ++ R.eraseIdx k := by
  induction A with
  | nil => simp
  | cons a A ih =>
    have : A.length + 1 + k = (A.length + k) + 1 := by omega
    simp only [List.cons_append, List.length_cons, this, List.eraseIdx_cons_succ]
    rw [ih]

theorem list_getD_drop (l : List α) (n j : Nat) (d : α) :
    (l.drop n).getD j d = l.getD (n + j) d := by
  induction n generalizing l with
  | zero => simp
  | succ n ih =>
    cases l with
    | nil => simp
    | cons a t =>
      have : n + 1 + j = (n + j) + 1 := by omega
      simp only [List.drop_succ_cons, this, List.getD_cons_succ]
      exact ih t

theorem list_decomp (l : List α) (i : Nat) (d : α) (h : i < l.length) :
    l = l.take i ++ l.getD i d :: l.drop (i + 1) := by
  conv_lhs => rw [← List.take_append_drop i l]
  congr 1
  rw [List.drop_eq_getElem_cons h]
  congr 1
  simp [List.getD_eq_getElem?_getD, List.getElem?_eq_getElem h]

theorem fmem_walk_found (need : Nat) : ∀ (l : List FPage) (j f : Nat),
    fmem_walk need l = .found j f →
    j < l.length ∧ fpage_is_free (l.getD j ⟨0, 0⟩) = true := by
  intro l
  induction l with
  | nil => intro j f h; simp [fmem_walk] at h
  | cons p rest ih =>
    intro j f h
    unfold fmem_walk at h
    by_cases h1 : fpage_get_magic p ≠ POISON
    · simp [h1] at h
    · simp only [h1, if_false, ite_false] at h
      by_cases h2 : fpage_is_free p = false
      · simp only [h2, if_true, ite_true] at h
        cases hr : fmem_walk need rest with
        | noFit => rw [hr] at h; simp [walk_bump] at h
        | poisoned => rw [hr] at h; simp [walk_bump] at h
        | found j' f' =>
          rw [hr] at h
          simp only [walk_bump] at h
          cases h
          rcases ih _ _ hr with ⟨hlt, hfree⟩
          exact ⟨by simpa using Nat.succ_lt_succ hlt, by simpa using hfree⟩
      · simp only [h2, if_false, ite_false] at h
        by_cases h3 : fpage_can_fit p need = CAN_NOT_FIT
        · simp only [h3, if_true, ite_true] at h
          cases hr : fmem_walk need rest with
          | noFit => rw [hr] at h; simp [walk_bump] at h
          | poisoned => rw [hr] at h; simp [walk_bump] at h
          | found j' f' =>
            rw [hr] at h
            simp only [walk_bump] at h
            cases h
            rcases ih _ _ hr with ⟨hlt, hfree⟩
            exact ⟨by simpa using Nat.succ_lt_succ hlt, by simpa using hfree⟩
        · simp only [h3, if_false, ite_false] at h
          cases h
          refine ⟨by simp, ?_⟩
          simp only [List.getD_cons_zero]
          exact eq_true_of_ne_false h2

/-! ### Helper lemmas: `fpage_merge` on a decomposed page list -/

theorem merge_decomp_facts (C B : List FPage) (prev fpage : FPage) (R : List FPage) :
    (C ++ prev :: fpage :: R ++ B).length = C.length + B.length + R.length + 2 := by
  simp [List.length_append, List.length_cons]
  omega

theorem merge_no_merge (ps : List FPage) (i : Nat)
    (hp : fpage_is_free (ps.getD ((i + ps.length - 1) % ps.length) ⟨0, 0⟩) = false)
    (hn : fpage_is_free (ps.getD ((i + 1) % ps.length) ⟨0, 0⟩) = false) :
    fpage_merge ps i = (ps, i) := by
  simp only [fpage_merge]
  split
  · rename_i hcon
    rw [hp] at hcon
    exact absurd hcon.1.2 (by simp)
  split
  · rename_i hcon
    rw [hp] at hcon
    exact absurd hcon.2 (by simp)
  split
  · rename_i hcon
    rw [hn] at hcon
    exact absurd hcon.2 (by simp)
  rfl

theorem merge_three_way (C B : List FPage) (prev fpage next : FPage)
    (hprev : fpage_is_free prev = true) (hnext : fpage_is_free next = true) :
    fpage_merge (C ++ prev :: fpage :: next :: B) (C.length + 1) =
      (C ++ { prev with size := (prev.size + fpage.size + next.size) % U32 } :: B,
       C.length) := by
  have hM : (C ++ prev :: fpage :: next :: B).length = C.length + B.length + 3 := by
    simp [List.length_append, List.length_cons]
    omega
  have hpi : (C.length + 1 + (C ++ prev :: fpage :: next :: B).length - 1) %
      (C ++ prev :: fpage :: next :: B).length = C.length := by
    rw [hM]
    have h1 : C.length + 1 + (C.length + B.length + 3) - 1
        = C.length + (C.length + B.length + 3) := by omega
    rw [h1, Nat.add_mod_right]
    exact Nat.mod_eq_of_lt (by omega)
  have hni : (C.length + 1 + 1) % (C ++ prev :: fpage :: next :: B).length
      = C.length + 2 := by
    rw [hM]
    exact Nat.mod_eq_of_lt (by omega)
  have hgi : (C ++ prev :: fpage :: next :: B).getD (C.length + 1) ⟨0, 0⟩ = fpage := by
    rw [list_getD_append]
    simp
  have hgpi : (C ++ prev :: fpage :: next :: B).getD C.length ⟨0, 0⟩ = prev := by
    have := list_getD_append C (prev :: fpage :: next :: B) ⟨0, 0⟩ 0
    simpa using this
  have hgni : (C ++ prev :: fpage :: next :: B).getD (C.length + 2) ⟨0, 0⟩ = next := by
    have := list_getD_append C (prev :: fpage :: next :: B) ⟨0, 0⟩ 2
    simpa using this
  have hset : (C ++ prev :: fpage :: next :: B).set C.length
      { prev with size := (prev.size + fpage.size + next.size) % U32 }
      = C ++ { prev with size := (prev.size + fpage.size + next.size) % U32 }
          :: fpage :: next :: B := by
    have := list_set_append C (prev :: fpage :: next :: B) 0
      { prev with size := (prev.size + fpage.size + next.size) % U32 }
    simpa using this
  have herase1 : (C ++ { prev with size := (prev.size + fpage.size + next.size) % U32 }
      :: fpage :: next :: B).eraseIdx (C.length + 2)
      = C ++ { prev with size := (prev.size + fpage.size + next.size) % U32 }
          :: fpage :: B := by
    have := list_eraseIdx_append C
      ({ prev with size := (prev.size + fpage.size + next.size) % U32 } :: fpage :: next :: B) 2
    simpa using this
  have herase2 : (C ++ { prev with size := (prev.size + fpage.size + next.size) % U32 }
      :: fpage :: B).eraseIdx (C.length + 1)
      = C ++ { prev with size := (prev.size + fpage.size + next.size) % U32 } :: B := by
    have := list_eraseIdx_append C
      ({ prev with size := (prev.size + fpage.size + next.size) % U32 } :: fpage :: B) 1
    simpa using this
  unfold fpage_merge
  simp only [hpi, hni, hgi, hgpi, hgni]
  rw [if_pos ⟨⟨by omega, hprev⟩, ⟨by omega, hnext⟩⟩]
  rw [if_neg (by omega : ¬(C.length + 2 < C.length + 1))]
  rw [if_neg (by omega : ¬(C.length + 2 < C.length))]
  rw [if_neg (by omega : ¬(C.length + 1 < C.length))]
  rw [hset, herase1, herase2]
  simp

theorem merge_prev_only (C B : List FPage) (prev fpage next : FPage)
    (hprev : fpage_is_free prev = true) (hnext : fpage_is_free next = false) :
    fpage_merge (C ++ prev :: fpage :: next :: B) (C.length + 1) =
      (C ++ { prev with size := (prev.size + fpage.size) % U32 } :: next :: B,
       C.length) := by
  have hM : (C ++ prev :: fpage :: next :: B).length = C.length + B.length + 3 := by
    simp [List.length_append, List.length_cons]
    omega
  have hpi : (C.length + 1 + (C ++ prev :: fpage :: next :: B).length - 1) %
      (C ++ prev :: fpage :: next :: B).length = C.length := by
    rw [hM]
    have h1 : C.length + 1 + (C.length + B.length + 3) - 1
        = C.length + (C.length + B.length + 3) := by omega
    rw [h1, Nat.add_mod_right]
    exact Nat.mod_eq_of_lt (by omega)
  have hni : (C.length + 1 + 1) % (C ++ prev :: fpage :: next :: B).length
      = C.length + 2 := by
    rw [hM]
    exact Nat.mod_eq_of_lt (by omega)
  have hgi : (C ++ prev :: fpage :: next :: B).getD (C.length + 1) ⟨0, 0⟩ = fpage := by
    rw [list_getD_append]
    simp
  have hgpi : (C ++ prev :: fpage :: next :: B).getD C.length ⟨0, 0⟩ = prev := by
    have := list_getD_append C (prev :: fpage :: next :: B) ⟨0, 0⟩ 0
    simpa using this
  have hgni : (C ++ prev :: fpage :: next :: B).getD (C.length + 2) ⟨0, 0⟩ = next := by
    have := list_getD_append C (prev :: fpage :: next :: B) ⟨0, 0⟩ 2
    simpa using this
  have hset : (C ++ prev :: fpage :: next :: B).set C.length
      { prev with size := (prev.size + fpage.size) % U32 }
      = C ++ { prev with size := (prev.size + fpage.size) % U32 } :: fpage :: next :: B := by
    have := list_set_append C (prev :: fpage :: next :: B) 0
      { prev with size := (prev.size + fpage.size) % U32 }
    simpa using this
  have herase : (C ++ { prev with size := (prev.size + fpage.size) % U32 }
      :: fpage :: next :: B).eraseIdx (C.length + 1)
      = C ++ { prev with size := (prev.size + fpage.size) % U32 } :: next :: B := by
    have := list_eraseIdx_append C
      ({ prev with size := (prev.size + fpage.size) % U32 } :: fpage :: next :: B) 1
    simpa using this
  unfold fpage_merge
  simp only [hpi, hni, hgi, hgpi, hgni]
  rw [if_neg (by simp [hnext] : ¬((C.length ≠ C.length + 1 ∧ fpage_is_free prev = true)
        ∧ (C.length + 2 ≠ C.length + 1 ∧ fpage_is_free next = true)))]
  rw [if_pos ⟨by omega, hprev⟩]
  rw [if_neg (by omega : ¬(C.length + 1 < C.length))]
  rw [hset, herase]
  simp

theorem merge_next_only (C B : List FPage) (prev fpage next : FPage)
    (hprev : fpage_is_free prev = false) (hnext : fpage_is_free next = true) :
    fpage_merge (C ++ prev :: fpage :: next :: B) (C.length + 1) =
      (C ++ prev :: { fpage with size := (fpage.size + next.size) % U32 } :: B,
       C.length + 1) := by
  have hM : (C ++ prev :: fpage :: next :: B).length = C.length + B.length + 3 := by
    simp [List.length_append, List.length_cons]
    omega
  have hpi : (C.length + 1 + (C ++ prev :: fpage :: next :: B).length - 1) %
      (C ++ prev :: fpage :: next :: B).length = C.length := by
    rw [hM]
    have h1 : C.length + 1 + (C.length + B.length + 3) - 1
        = C.length + (C.length + B.length + 3) := by omega
    rw [h1, Nat.add_mod_right]
    exact Nat.mod_eq_of_lt (by omega)
  have hni : (C.length + 1 + 1) % (C ++ prev :: fpage :: next :: B).length
      = C.length + 2 := by
    rw [hM]
    exact Nat.mod_eq_of_lt (by omega)
  have hgi : (C ++ prev :: fpage :: next :: B).getD (C.length + 1) ⟨0, 0⟩ = fpage := by
    rw [list_getD_append]
    simp
  have hgpi : (C ++ prev :: fpage :: next :: B).getD C.length ⟨0, 0⟩ = prev := by
    have := list_getD_append C (prev :: fpage :: next :: B) ⟨0, 0⟩ 0
    simpa using this
  have hgni : (C ++ prev :: fpage :: next :: B).getD (C.length + 2) ⟨0, 0⟩ = next := by
    have := list_getD_append C (prev :: fpage :: next :: B) ⟨0, 0⟩ 2
    simpa using this
  have hset : (C ++ prev :: fpage :: next :: B).set (C.length + 1)
      { fpage with size := (fpage.size + next.size) % U32 }
      = C ++ prev :: { fpage with size := (fpage.size + next.size) % U32 } :: next :: B := by
    have := list_set_append C (prev :: fpage :: next :: B) 1
      { fpage with size := (fpage.size + next.size) % U32 }
    simpa using this
  have herase : (C ++ prev :: { fpage with size := (fpage.size + next.size) % U32 }
      :: next :: B).eraseIdx (C.length + 2)
      = C ++ prev :: { fpage with size := (fpage.size + next.size) % U32 } :: B := by
    have := list_eraseIdx_append C
      (prev :: { fpage with size := (fpage.size + next.size) % U32 } :: next :: B) 2
    simpa using this
  unfold fpage_merge
  simp only [hpi, hni, hgi, hgpi, hgni]
  rw [if_neg (by simp [hprev] : ¬((C.length ≠ C.length + 1 ∧ fpage_is_free prev = true)
        ∧ (C.length + 2 ≠ C.length + 1 ∧ fpage_is_free next = true)))]
  rw [if_neg (by simp [hprev] : ¬(C.length ≠ C.length + 1 ∧ fpage_is_free prev = true))]
  rw [if_pos ⟨by omega, hnext⟩]
  rw [if_neg (by omega : ¬(C.length + 2 < C.length + 1))]
  rw [hset, herase]
  simp

theorem merge_tail_prev (C : List FPage) (prev fpage : FPage)
    (hprev : fpage_is_free prev = true)
    (hhead : fpage_is_free ((C ++ [prev, fpage]).getD 0 ⟨0, 0⟩) = false) :
    fpage_merge (C ++ [prev, fpage]) (C.length + 1) =
      (C ++ [{ prev with size := (prev.size + fpage.size) % U32 }], C.length) := by
  have hM : (C ++ [prev, fpage]).length = C.length + 2 := by
    simp [List.length_append, List.length_cons]
  have hpi : (C.length + 1 + (C ++ [prev, fpage]).length - 1) %
      (C ++ [prev, fpage]).length = C.length := by
    rw [hM]
    have h1 : C.length + 1 + (C.length + 2) - 1 = C.length + (C.length + 2) := by omega
    rw [h1, Nat.add_mod_right]
    exact Nat.mod_eq_of_lt (by omega)
  have hni : (C.length + 1 + 1) % (C ++ [prev, fpage]).length = 0 := by
    rw [hM]
    have h1 : C.length + 1 + 1 = C.length + 2 := by omega
    rw [h1]
    exact Nat.mod_self _
  have hgi : (C ++ [prev, fpage]).getD (C.length + 1) ⟨0, 0⟩ = fpage := by
    have := list_getD_append C [prev, fpage] ⟨0, 0⟩ 1
    simpa using this
  have hgpi : (C ++ [prev, fpage]).getD C.length ⟨0, 0⟩ = prev := by
    have := list_getD_append C [prev, fpage] ⟨0, 0⟩ 0
    simpa using this
  have hset : (C ++ [prev, fpage]).set C.length
      { prev with size := (prev.size + fpage.size) % U32 }
      = C ++ [{ prev with size := (prev.size + fpage.size) % U32 }, fpage] := by
    have := list_set_append C [prev, fpage] 0
      { prev with size := (prev.size + fpage.size) % U32 }
    simpa using this
  have herase : (C ++ [{ prev with size := (prev.size + fpage.size) % U32 }, fpage]).eraseIdx
      (C.length + 1)
      = C ++ [{ prev with size := (prev.size + fpage.size) % U32 }] := by
    have := list_eraseIdx_append C
      [{ prev with size := (prev.size + fpage.size) % U32 }, fpage] 1
    simpa using this
  have hcond : ¬((C.length ≠ C.length + 1 ∧ fpage_is_free prev = true)
      ∧ (0 ≠ C.length + 1
         ∧ fpage_is_free ((C ++ [prev, fpage]).getD 0 ⟨0, 0⟩) = true)) := by
    intro hcon
    rw [hhead] at hcon
    exact absurd hcon.2.2 (by simp)
  unfold fpage_merge
  simp only [hpi, hni, hgi, hgpi]
  rw [if_neg hcond]
  rw [if_pos ⟨by omega, hprev⟩]
  rw [if_neg (by omega : ¬(C.length + 1 < C.length))]
  rw [hset, herase]
  simp

theorem list_drop_append (A R : List α) (k : Nat) : (A ++ R).drop (A.length + k) = R.drop k := by
  induction A with
  | nil => simp
  | cons a A ih =>
    have : A.length + 1 + k = (A.length + k) + 1 := by omega
    simp only [List.cons_append, List.length_cons, this, List.drop_succ_cons]
    exact ih

/-! ### Claims -/

/-- Claim C2, counterexample: the error kinds do not have pairwise
distinct codes — bad-init-mem and commit-failed are both −2,
input-too-small and out-of-memory are both −1, and the corruption
sentinel is also −2. -/
theorem claim_C2_counterexample :
    E_BAD_INIT_MEM = E_COMMIT_FAILED
    ∧ E_TOTAL_ALLOCATION_SIZE_TOO_SMALL = FMEM_E_NOMEM
    ∧ EE_BAD_MEM = E_COMMIT_FAILED := by
  decide

/-- Claim C2, amended: all five error codes are negative integers, but
they are not pairwise distinct: input-too-small and out-of-memory share
−1; bad-init-mem, commit-failed and the corruption sentinel share −2;
only the two groups are distinguished from each other. -/
theorem claim_C2_amended :
    E_TOTAL_ALLOCATION_SIZE_TOO_SMALL < 0 ∧ E_BAD_INIT_MEM < 0 ∧ FMEM_E_NOMEM < 0
    ∧ E_COMMIT_FAILED < 0 ∧ EE_BAD_MEM < 0
    ∧ E_TOTAL_ALLOCATION_SIZE_TOO_SMALL = FMEM_E_NOMEM
    ∧ E_BAD_INIT_MEM = E_COMMIT_FAILED
    ∧ EE_BAD_MEM = E_COMMIT_FAILED
    ∧ E_TOTAL_ALLOCATION_SIZE_TOO_SMALL ≠ E_COMMIT_FAILED := by
  decide

/-- Claim C4: `fit(p, n)` returns `CAN_NOT_FIT` iff `n > actual(p)`,
`FIT_AS_IS` iff `actual(p) − PAGE_REMAIN_FREE ≤ n ≤ actual(p)`, and
`FIT_WITH_CARVE` in exactly the remaining cases; the three outcomes are
mutually exclusive (distinct codes, a single outcome per input) and
exhaustive. -/
theorem claim_C4_fit_trichotomy (p : FPage) (n : Nat) :
    (fpage_can_fit p n = CAN_NOT_FIT ↔ n > fpage_actual p)
    ∧ (fpage_can_fit p n = FIT_AS_IS ↔
        fpage_actual p - PAGE_REMAIN_FREE ≤ n ∧ n ≤ fpage_actual p)
    ∧ (fpage_can_fit p n = FIT_WITH_CARVE ↔
        ¬(n > fpage_actual p)
        ∧ ¬(fpage_actual p - PAGE_REMAIN_FREE ≤ n ∧ n ≤ fpage_actual p))
    ∧ (fpage_can_fit p n = CAN_NOT_FIT ∨ fpage_can_fit p n = FIT_AS_IS
        ∨ fpage_can_fit p n = FIT_WITH_CARVE) := by
  simp only [fpage_can_fit, CAN_NOT_FIT, FIT_AS_IS, FIT_WITH_CARVE]
  split_ifs with h1 h2 <;> refine ⟨?_, ?_, ?_, ?_⟩ <;> simp <;> omega

/-- Claim C8: `create_new` rejects with `E_TOTAL_ALLOCATION_SIZE_TOO_SMALL`
iff `length < 3·sizeof(header) + sizeof(accounting)`; otherwise it
rejects with `E_BAD_INIT_MEM` iff
`length < min_alloc + 2·sizeof(header) + sizeof(accounting)`, the
inequality using the caller-supplied `min_alloc` (the clamp up to
`sizeof(header)` happens only after this check). -/
theorem claim_C8_create_checks (L m : Nat) (c : Option Bool) :
    (L < 3 * PAGE_OVERHEAD + FMEM_SIZE → fmem_create_new L m c = .error .tooSmall)
    ∧ (3 * PAGE_OVERHEAD + FMEM_SIZE ≤ L → L < m + 2 * PAGE_OVERHEAD + FMEM_SIZE →
        fmem_create_new L m c = .error .badInitMem)
    ∧ (3 * PAGE_OVERHEAD + FMEM_SIZE ≤ L → m + 2 * PAGE_OVERHEAD + FMEM_SIZE ≤ L →
        fmem_create_new L m c ≠ .error .tooSmall
        ∧ fmem_create_new L m c ≠ .error .badInitMem) := by
  unfold fmem_create_new MIN_TOTAL_ALLOCATION
  refine ⟨?_, ?_, ?_⟩
  · intro h
    rw [if_pos h]
  · intro h1 h2
    rw [if_neg (by omega), if_pos h2]
  · intro h1 h2
    rw [if_neg (by omega), if_neg (by omega)]
    rcases c with _ | ok
    · simp
    · cases ok <;> simp

/-- Claim C8, witness: `create_new(10, 5)` is rejected as too small;
`create_new(150, 100)` is rejected as bad init mem; `create_new(264,
100)` passes both checks. -/
theorem claim_C8_witness :
    fmem_create_new 10 5 none = .error .tooSmall
    ∧ fmem_create_new 150 100 none = .error .badInitMem
    ∧ (fmem_create_new 264 100 none ≠ .error .tooSmall
       ∧ fmem_create_new 264 100 none ≠ .error .badInitMem) :=
  ⟨(claim_C8_create_checks 10 5 none).1 (by decide),
   (claim_C8_create_checks 150 100 none).2.1 (by decide) (by decide),
   (claim_C8_create_checks 264 100 none).2.2 (by decide) (by decide)⟩

/-- Claim C5: carving `n` bytes out of page `p` (placed at any position
in the page list, under the `FIT_WITH_CARVE` precondition) leaves a
shrunk page and a new page such that the two sizes sum to the old size,
the new page's size is `n + sizeof(header)`, its header was zeroed
(flags 0) before the size was set, it is linked immediately after `p`,
and it starts at address `p + p.size_after` (the higher-address
fragment). -/
theorem claim_C5_carve (C B : List FPage) (p : FPage) (n : Nat)
    (hsz : PAGE_OVERHEAD ≤ p.size) (hszU : p.size < U32)
    (hfit : fpage_can_fit p n = FIT_WITH_CARVE) :
    (fpage_carve_at (C ++ p :: B) C.length n).1
      = C ++ (fpage_carve p n).1 :: (fpage_carve p n).2.1 :: B
    ∧ (fpage_carve p n).1.size + (fpage_carve p n).2.1.size = p.size
    ∧ (fpage_carve p n).2.1.size = n + PAGE_OVERHEAD
    ∧ (fpage_carve p n).2.1.flags = 0
    ∧ (fpage_carve_at (C ++ p :: B) C.length n).2.2
        = fmem_offset (C ++ p :: B) C.length + (fpage_carve p n).1.size := by
  have hPO : PAGE_OVERHEAD = 24 := rfl
  have hU : U32 = 4294967296 := rfl
  have hlt : n + PAGE_REMAIN_FREE < fpage_actual p := by
    simp only [fpage_can_fit, CAN_NOT_FIT, FIT_AS_IS, FIT_WITH_CARVE] at hfit
    split_ifs at hfit with h1 h2 <;> omega
  have hactual : fpage_actual p = p.size - PAGE_OVERHEAD := by
    unfold fpage_actual
    have h1 : p.size + U32 - PAGE_OVERHEAD = (p.size - PAGE_OVERHEAD) + U32 := by omega
    rw [h1, Nat.add_mod_right]
    exact Nat.mod_eq_of_lt (by omega)
  have hPRF : PAGE_REMAIN_FREE = 48 := rfl
  have hneed : (n + PAGE_OVERHEAD) % U32 = n + PAGE_OVERHEAD := by
    apply Nat.mod_eq_of_lt
    omega
  have hshrunk : (fpage_carve p n).1.size = p.size - (n + PAGE_OVERHEAD) := by
    show (p.size + U32 - (n + PAGE_OVERHEAD) % U32) % U32 = _
    rw [hneed]
    have h1 : p.size + U32 - (n + PAGE_OVERHEAD)
        = (p.size - (n + PAGE_OVERHEAD)) + U32 := by omega
    rw [h1, Nat.add_mod_right]
    exact Nat.mod_eq_of_lt (by omega)
  have hcreated : (fpage_carve p n).2.1.size = n + PAGE_OVERHEAD := by
    show (n + PAGE_OVERHEAD) % U32 = _
    exact hneed
  refine ⟨?_, ?_, hcreated, rfl, ?_⟩
  · unfold fpage_carve_at
    have hgd : (C ++ p :: B).getD C.length ⟨0, 0⟩ = p := by
      have := list_getD_append C (p :: B) ⟨0, 0⟩ 0
      simpa using this
    have htk : (C ++ p :: B).take C.length = C := List.take_left C (p :: B)
    have hdr : (C ++ p :: B).drop (C.length + 1) = B := by
      have := list_drop_append C (p :: B) 1
      simpa using this
    rw [hgd, htk, hdr]
  · rw [hshrunk, hcreated]
    omega
  · unfold fpage_carve_at
    have hgd : (C ++ p :: B).getD C.length ⟨0, 0⟩ = p := by
      have := list_getD_append C (p :: B) ⟨0, 0⟩ 0
      simpa using this
    rw [hgd]
    rfl

/-- Claim C5, witness: carving 24 payload bytes out of a free 240-byte
page placed after one other page. -/
theorem claim_C5_witness :
    (fpage_carve_at [⟨32768, 96⟩, ⟨0, 240⟩] 1 24).1
      = [⟨32768, 96⟩] ++ (fpage_carve ⟨0, 240⟩ 24).1 :: (fpage_carve ⟨0, 240⟩ 24).2.1 :: []
    ∧ (fpage_carve ⟨0, 240⟩ 24).1.size + (fpage_carve ⟨0, 240⟩ 24).2.1.size
        = (⟨0, 240⟩ : FPage).size
    ∧ (fpage_carve ⟨0, 240⟩ 24).2.1.size = 24 + PAGE_OVERHEAD
    ∧ (fpage_carve ⟨0, 240⟩ 24).2.1.flags = 0
    ∧ (fpage_carve_at [⟨32768, 96⟩, ⟨0, 240⟩] 1 24).2.2
        = fmem_offset [⟨32768, 96⟩, ⟨0, 240⟩] 1 + (fpage_carve ⟨0, 240⟩ 24).1.size := by
  have h := claim_C5_carve [⟨32768, 96⟩] [] ⟨0, 240⟩ 24
    (by decide) (by decide) (by decide)
  simpa using h

/-- Claim C9: `commit_mem(ptr, len)` substitutes `len = actual(page)`
when `len = 0` (and then always succeeds, submitting the full payload);
it returns `E_COMMIT_FAILED` whenever `ptr + len` exceeds the end of the
page's payload; otherwise it submits exactly one range `(ptr, len)` and
returns `len` on committer success. -/
theorem claim_C9_commit_mem (mem len : Nat) (p : FPage)
    (hmem : PAGE_OVERHEAD ≤ mem)
    (hmag : fpage_get_magic p = POISON) :
    (len = 0 →
      fmem_commit_mem (some true) mem p len
        = ((fpage_actual p : Int), some (mem, fpage_actual p)))
    ∧ (mem + (if len = 0 then fpage_actual p else len)
          > mem - PAGE_OVERHEAD + PAGE_OVERHEAD + fpage_actual p →
        fmem_commit_mem (some true) mem p len = (E_COMMIT_FAILED, none))
    ∧ (mem + (if len = 0 then fpage_actual p else len)
          ≤ mem - PAGE_OVERHEAD + PAGE_OVERHEAD + fpage_actual p →
        fmem_commit_mem (some true) mem p len
          = (((if len = 0 then fpage_actual p else len) : Int),
             some (mem, if len = 0 then fpage_actual p else len))) := by
  have hnn : ¬(fpage_get_magic p ≠ POISON) := by simp [hmag]
  refine ⟨?_, ?_, ?_⟩
  · intro h0
    subst h0
    simp only [fmem_commit_mem]
    rw [if_neg hnn]
    simp only [if_true]
    rw [if_neg (by omega :
      ¬(mem + fpage_actual p > mem - PAGE_OVERHEAD + PAGE_OVERHEAD + fpage_actual p))]
  · intro hgt
    simp only [fmem_commit_mem]
    rw [if_neg hnn, if_pos hgt]
  · intro hle
    simp only [fmem_commit_mem]
    rw [if_neg hnn, if_neg (not_lt.mpr hle)]
    simp only [if_true]
    split_ifs <;> simp

/-- Claim C9, witness: on a 48-byte page (payload 24) at offset 96 with
payload pointer 120: `len = 0` commits the whole payload and returns 24;
`len = 100` overruns and fails; `len = 10` commits `(120, 10)`. -/
theorem claim_C9_witness :
    fmem_commit_mem (some true) 120 ⟨0xBEEF0000, 48⟩ 0
      = ((24 : Int), some (120, 24))
    ∧ fmem_commit_mem (some true) 120 ⟨0xBEEF0000, 48⟩ 100
      = (E_COMMIT_FAILED, none)
    ∧ fmem_commit_mem (some true) 120 ⟨0xBEEF0000, 48⟩ 10
      = ((10 : Int), some (120, 10)) :=
  ⟨by
    have h := (claim_C9_commit_mem 120 0 ⟨0xBEEF0000, 48⟩ (by decide) (by decide)).1 rfl
    simpa using h,
   by
    have h := (claim_C9_commit_mem 120 100 ⟨0xBEEF0000, 48⟩ (by decide) (by decide)).2.1
      (by decide)
    simpa using h,
   by
    have h := (claim_C9_commit_mem 120 10 ⟨0xBEEF0000, 48⟩ (by decide) (by decide)).2.2
      (by decide)
    simpa using h⟩

theorem set_free_set_busy (p : FPage) :
    fpage_set_free (fpage_set_busy p) = fpage_set_free p := by
  show FPage.mk ((p.flags ||| 32768) &&& 4294934527) p.size
      = FPage.mk (p.flags &&& 4294934527) p.size
  congr 1
  apply Nat.eq_of_testBit_eq
  intro j
  rw [Nat.testBit_and, Nat.testBit_and, Nat.testBit_or, testBit_32768]
  rcases eq_or_ne j 15 with rfl | hj
  · simp [(by decide : Nat.testBit 4294934527 15 = false)]
  · simp [hj]

theorem get_magic_set_busy (p : FPage) :
    fpage_get_magic (fpage_set_busy p) = fpage_get_magic p := by
  show (p.flags ||| 32768) >>> 16 = p.flags >>> 16
  apply Nat.eq_of_testBit_eq
  intro j
  rw [Nat.testBit_shiftRight, Nat.testBit_shiftRight, Nat.testBit_or, testBit_32768]
  rw [decide_eq_false (by omega : ¬(16 + j = 15)), Bool.or_false]

theorem list_getD_set_self (l : List α) (i : Nat) (x d : α) (h : i < l.length) :
    (l.set i x).getD i d = x := by
  induction l generalizing i with
  | nil => simp at h
  | cons a t ih =>
    cases i with
    | zero => simp
    | succ i =>
      simp only [List.set_cons_succ, List.getD_cons_succ]
      exact ih i (by simpa using Nat.lt_of_succ_lt_succ h)

/-- Claim C6: for a page with genuine `prev` and `next` neighbours (both
distinct from it): if both are free, `merge` gives prev the summed size,
removes the page and its next from the list, and survives as prev; if
only prev is free, prev absorbs the page; if only next is free, the page
absorbs next and survives itself; otherwise nothing changes.  (Sizes are
`uint32_t` sums.) -/
theorem claim_C6_merge (C B : List FPage) (prev p next : FPage) :
    (fpage_is_free prev = true → fpage_is_free next = true →
      fpage_merge (C ++ prev :: p :: next :: B) (C.length + 1)
        = (C ++ { prev with size := (prev.size + p.size + next.size) % U32 } :: B,
           C.length))
    ∧ (fpage_is_free prev = true → fpage_is_free next = false →
      fpage_merge (C ++ prev :: p :: next :: B) (C.length + 1)
        = (C ++ { prev with size := (prev.size + p.size) % U32 } :: next :: B,
           C.length))
    ∧ (fpage_is_free prev = false → fpage_is_free next = true →
      fpage_merge (C ++ prev :: p :: next :: B) (C.length + 1)
        = (C ++ prev :: { p with size := (p.size + next.size) % U32 } :: B,
           C.length + 1))
    ∧ (fpage_is_free prev = false → fpage_is_free next = false →
      fpage_merge (C ++ prev :: p :: next :: B) (C.length + 1)
        = (C ++ prev :: p :: next :: B, C.length + 1)) := by
  refine ⟨merge_three_way C B prev p next, merge_prev_only C B prev p next,
    merge_next_only C B prev p next, ?_⟩
  intro h1 h2
  have hM : (C ++ prev :: p :: next :: B).length = C.length + B.length + 3 := by
    simp [List.length_append, List.length_cons]
    omega
  have hpi : (C.length + 1 + (C ++ prev :: p :: next :: B).length - 1) %
      (C ++ prev :: p :: next :: B).length = C.length := by
    rw [hM]
    have h3 : C.length + 1 + (C.length + B.length + 3) - 1
        = C.length + (C.length + B.length + 3) := by omega
    rw [h3, Nat.add_mod_right]
    exact Nat.mod_eq_of_lt (by omega)
  have hni : (C.length + 1 + 1) % (C ++ prev :: p :: next :: B).length
      = C.length + 2 := by
    rw [hM]
    exact Nat.mod_eq_of_lt (by omega)
  have hgpi : (C ++ prev :: p :: next :: B).getD C.length ⟨0, 0⟩ = prev := by
    have := list_getD_append C (prev :: p :: next :: B) ⟨0, 0⟩ 0
    simpa using this
  have hgni : (C ++ prev :: p :: next :: B).getD (C.length + 2) ⟨0, 0⟩ = next := by
    have := list_getD_append C (prev :: p :: next :: B) ⟨0, 0⟩ 2
    simpa using this
  apply merge_no_merge
  · rw [hpi, hgpi]
    exact h1
  · rw [hni, hgni]
    exact h2

/-- Claim C6, witness: four adjacent pages A(busy), B(free), C(free),
D(free); merging at C coalesces all three free pages into one page of
three times the size, leaving a list of length 2 (the seed scenario of
the spec). -/
theorem claim_C6_witness :
    fpage_merge [⟨32768, 240⟩, ⟨0, 240⟩, ⟨0, 240⟩, ⟨0, 240⟩] 2
      = ([⟨32768, 240⟩, ⟨0, 720⟩], 1) := by
  have h := (claim_C6_merge [⟨32768, 240⟩] [] ⟨0, 240⟩ ⟨0, 240⟩ ⟨0, 240⟩).1
    (by decide) (by decide)
  simpa [U32] using h

/-- Claim C7, counterexample: the claim fails at region length
`L = 2^33` — `create_new` succeeds, but the main page's 32-bit `size`
field stores `(L − 96) mod 2^32 = 2^32 − 96`, not `L − 96`. -/
theorem claim_C7_counterexample :
    (fmem_create_new 8589934592 0 none).toOption.map
        (fun s => (s.pages.getD 1 ⟨0, 0⟩).size) = some (U32 - 96)
    ∧ U32 - 96 ≠ 8589934592 - (PAGE_OVERHEAD + FMEM_SIZE) := by
  refine ⟨by decide, by decide⟩

/-- The state produced by a successful `fmem_create_new`. -/
theorem fmem_create_new_ok_shape (L m : Nat) (c : Option Bool) (s : Fmem)
    (h : fmem_create_new L m c = .ok s) :
    s.pages = [fpage_set_magic (fpage_set_busy ⟨0, PAGE_OVERHEAD + FMEM_SIZE⟩) POISON,
        fpage_set_magic (fpage_set_free ⟨0, (L - (PAGE_OVERHEAD + FMEM_SIZE)) % U32⟩) POISON]
      ∧ s.total_size = L ∧ s.alloc_objects = 0 := by
  unfold fmem_create_new at h
  split_ifs at h with h1 h2 h3
  · rcases c with _ | ok
    · injection h with h'
      subst h'
      exact ⟨rfl, rfl, rfl⟩
    · cases ok
      · simp at h
      · injection h with h'
        subst h'
        exact ⟨rfl, rfl, rfl⟩
  · rcases c with _ | ok
    · injection h with h'
      subst h'
      exact ⟨rfl, rfl, rfl⟩
    · cases ok
      · simp at h
      · injection h with h'
        subst h'
        exact ⟨rfl, rfl, rfl⟩

/-- Claim C7, amended: whenever `create_new` succeeds on a region of
length `L`, the state has exactly two pages: a busy head of size
`sizeof(header) + sizeof(accounting)` at offset 0, and a free main page
immediately after it (offset `sizeof(header) + sizeof(accounting)`)
whose 32-bit size field stores `(L − sizeof(header) −
sizeof(accounting)) mod 2^32` (equal to the claim's `L − H − A` exactly
when that value fits in 32 bits); the accounting block records
`total_size = L` and `alloc_objects = 0`. -/
theorem claim_C7_amended (L m : Nat) (c : Option Bool) (s : Fmem)
    (h : fmem_create_new L m c = .ok s) :
    s.pages.length = 2
    ∧ (s.pages.getD 0 ⟨0, 0⟩).size = PAGE_OVERHEAD + FMEM_SIZE
    ∧ fpage_is_free (s.pages.getD 0 ⟨0, 0⟩) = false
    ∧ (s.pages.getD 1 ⟨0, 0⟩).size = (L - (PAGE_OVERHEAD + FMEM_SIZE)) % U32
    ∧ fpage_is_free (s.pages.getD 1 ⟨0, 0⟩) = true
    ∧ fmem_offset s.pages 1 = PAGE_OVERHEAD + FMEM_SIZE
    ∧ s.total_size = L
    ∧ s.alloc_objects = 0 := by
  obtain ⟨hp, ht, ha⟩ := fmem_create_new_ok_shape L m c s h
  rw [hp]
  refine ⟨rfl, rfl, ?_, rfl, ?_, ?_, ht, ha⟩
  · show fpage_is_free
        (fpage_set_magic (fpage_set_busy ⟨0, PAGE_OVERHEAD + FMEM_SIZE⟩) POISON) = false
    rw [is_free_set_magic, is_free_set_busy]
  · show fpage_is_free
        (fpage_set_magic
          (fpage_set_free ⟨0, (L - (PAGE_OVERHEAD + FMEM_SIZE)) % U32⟩) POISON) = true
    rw [is_free_set_magic, is_free_set_free]
  · show fmem_offset [fpage_set_magic (fpage_set_busy ⟨0, PAGE_OVERHEAD + FMEM_SIZE⟩) POISON,
        fpage_set_magic (fpage_set_free ⟨0, (L - (PAGE_OVERHEAD + FMEM_SIZE)) % U32⟩) POISON] 1
        = PAGE_OVERHEAD + FMEM_SIZE
    rfl

/-- Claim C7, witness: `create_new` on a zeroed 1024-byte region with no
committer produces the expected two-page state, which has two pages. -/
theorem claim_C7_witness :
    fmem_create_new 1024 0 none
      = Except.ok ⟨[⟨3203366912, 96⟩, ⟨3203334144, 928⟩], 1024, 904, 0, 24, none⟩
    ∧ (⟨[⟨3203366912, 96⟩, ⟨3203334144, 928⟩], 1024, 904, 0, 24, none⟩ : Fmem).pages.length
        = 2 :=
  ⟨by rfl, (claim_C7_amended 1024 0 none _ (by rfl)).1⟩

/-- Claim C10: `fmem_free` never checks the busy bit.  For any page that
passes the poison check (busy or already free), it returns the page's
full size captured before coalescing, decrements `alloc_objects` by 1
(as a `uint32_t`), adds the size to `total_available` (as a `size_t`),
and runs the merge on the page with its busy bit cleared; forcing the
page's busy bit beforehand changes nothing at all about the call. -/
theorem claim_C10_free_unconditional (s : Fmem) (i : Nat)
    (hi : i < s.pages.length)
    (hmag : fpage_get_magic (s.pages.getD i ⟨0, 0⟩) = POISON)
    (hcom : s.committer ≠ some false) :
    (fmem_free s i).ret = ((s.pages.getD i ⟨0, 0⟩).size : Int)
    ∧ (fmem_free s i).st.alloc_objects = (s.alloc_objects + U32 - 1) % U32
    ∧ (fmem_free s i).st.total_available
        = (s.total_available + (s.pages.getD i ⟨0, 0⟩).size) % U64
    ∧ (fmem_free s i).st.pages
        = (fpage_merge (s.pages.set i (fpage_set_free (s.pages.getD i ⟨0, 0⟩))) i).1
    ∧ fmem_free { s with pages := s.pages.set i (fpage_set_busy (s.pages.getD i ⟨0, 0⟩)) } i
        = fmem_free s i := by
  have hnn : ¬(fpage_get_magic (s.pages.getD i ⟨0, 0⟩) ≠ POISON) := fun hne => hne hmag
  refine ⟨?_, ?_, ?_, ?_, ?_⟩
  · simp only [fmem_free]
    rw [if_neg hnn]
    cases hc : s.committer with
    | none => rfl
    | some ok =>
      cases ok
      · exact absurd hc hcom
      · rfl
  · simp only [fmem_free]
    rw [if_neg hnn]
  · simp only [fmem_free]
    rw [if_neg hnn]
  · simp only [fmem_free]
    rw [if_neg hnn]
  · have hget : (s.pages.set i (fpage_set_busy (s.pages.getD i ⟨0, 0⟩))).getD i ⟨0, 0⟩
        = fpage_set_busy (s.pages.getD i ⟨0, 0⟩) :=
      list_getD_set_self _ i _ _ (by simpa using hi)
    have hm2 : fpage_get_magic (fpage_set_busy (s.pages.getD i ⟨0, 0⟩)) = POISON := by
      rw [get_magic_set_busy]
      exact hmag
    simp only [fmem_free]
    rw [hget, if_neg (fun hne => hne hm2), if_neg hnn, List.set_set, set_free_set_busy]
    rfl

/-- Claim C10, witness: double free — releasing the (already free) main
page of a fresh 1024-byte region returns its full size 928 and wraps
`alloc_objects` from 0 to `2^32 − 1`. -/
theorem claim_C10_witness :
    (fmem_free ⟨[⟨3203366912, 96⟩, ⟨3203334144, 928⟩], 1024, 904, 0, 24, none⟩ 1).ret
      = ((928 : Nat) : Int)
    ∧ (fmem_free ⟨[⟨3203366912, 96⟩, ⟨3203334144, 928⟩], 1024, 904, 0, 24, none⟩ 1).st.alloc_objects
      = (0 + U32 - 1) % U32 := by
  have h := claim_C10_free_unconditional
    ⟨[⟨3203366912, 96⟩, ⟨3203334144, 928⟩], 1024, 904, 0, 24, none⟩ 1
    (by decide) (by decide) (by simp)
  exact ⟨h.1, h.2.1⟩

/-- Claim C1: on a successful carve-path allocation with a committer
installed, the code fills three ranges (selected header, previous
sibling header, next sibling link pair) but invokes the committer with a
count of 1 (fmem.c line 333), not 3 as the claim states; on the no-carve
path it correctly submits one range covering the selected header with
count 1.  Evaluated on a fresh 1024-byte region (carve) and on a state
whose first free page fits as-is. -/
theorem claim_C1_carve_commit_count :
    (fmem_create_new 1024 0 (some true)).toOption.map
        (fun s => ((fmem_alloc s 10).commit).map (fun call => (call.ranges.length, call.count)))
      = some (some (3, 1))
    ∧ (fmem_create_new 1024 0 (some true)).toOption.map
        (fun s => (fmem_alloc s 10).commit)
      = some (some { ranges := [(976, PAGE_OVERHEAD), (96, PAGE_OVERHEAD),
                                (LINKS_OFF, LIST_HEAD_SIZE)], count := 1 })
    ∧ (fmem_alloc ⟨[⟨3203366912, 96⟩, ⟨3203334144, 48⟩], 1024, 904, 0, 24, some true⟩ 10).commit
      = some { ranges := [(96, PAGE_OVERHEAD)], count := 1 } := by
  refine ⟨by decide, by decide, by decide⟩

/-! ### The no-adjacent-free-pages invariant (claim C3) -/

theorem is_free_size_update (p : FPage) (x : Nat) :
    fpage_is_free { p with size := x } = fpage_is_free p := rfl

theorem list_getD_zero_append (C R : List α) (d : α) (hC : C ≠ []) :
    (C ++ R).getD 0 d = C.getD 0 d := by
  cases C with
  | nil => exact absurd rfl hC
  | cons a t => rfl

theorem list_getD_zero_cons (C : List α) (a : α) (X Y : List α) (d : α) :
    (C ++ a :: X).getD 0 d = (C ++ a :: Y).getD 0 d := by
  cases C with
  | nil => rfl
  | cons b t => rfl

theorem list_drop_decomp (l : List α) (i : Nat) (d : α) (h : i < l.length) :
    l.drop i = l.getD i d :: l.drop (i + 1) := by
  rw [List.drop_eq_getElem_cons h]
  congr 1
  simp [List.getD_eq_getElem?_getD, List.getElem?_eq_getElem h]

theorem chain_set_busy (A B : List FPage) (x : FPage)
    (hx : fpage_is_free x = false) (old : FPage)
    (hc : no_adjacent_free (A ++ old :: B)) :
    no_adjacent_free (A ++ x :: B) := by
  unfold no_adjacent_free at hc ⊢
  rw [List.chain'_append] at hc ⊢
  obtain ⟨hA, hmid, hbd⟩ := hc
  refine ⟨hA, ?_, ?_⟩
  · rw [List.chain'_cons'] at hmid ⊢
    exact ⟨fun y hy => Or.inl hx, hmid.2⟩
  · intro a ha y hy
    simp only [List.head?_cons, Option.mem_some_iff] at hy
    subst hy
    exact Or.inr hx

theorem chain_carve (A B : List FPage) (old shr sel : FPage)
    (hshr : fpage_is_free shr = fpage_is_free old)
    (hsel : fpage_is_free sel = false)
    (hc : no_adjacent_free (A ++ old :: B)) :
    no_adjacent_free (A ++ shr :: sel :: B) := by
  unfold no_adjacent_free at hc ⊢
  rw [List.chain'_append] at hc ⊢
  obtain ⟨hA, hmid, hbd⟩ := hc
  rw [List.chain'_cons'] at hmid
  refine ⟨hA, ?_, ?_⟩
  · rw [List.chain'_cons]
    refine ⟨Or.inr hsel, ?_⟩
    rw [List.chain'_cons']
    exact ⟨fun y hy => Or.inl hsel, hmid.2⟩
  · intro a ha y hy
    simp only [List.head?_cons, Option.mem_some_iff] at hy
    subst hy
    rcases hbd a ha old (by simp) with h | h
    · exact Or.inl h
    · exact Or.inr (by rw [hshr]; exact h)

theorem inv_create (L m : Nat) (c : Option Bool) (s : Fmem)
    (h : fmem_create_new L m c = .ok s) : fmem_inv s := by
  obtain ⟨hp, -, -⟩ := fmem_create_new_ok_shape L m c s h
  unfold fmem_inv
  constructor
  · rw [hp]
    show fpage_is_free
        (fpage_set_magic (fpage_set_busy ⟨0, PAGE_OVERHEAD + FMEM_SIZE⟩) POISON) = false
    rw [is_free_set_magic, is_free_set_busy]
  · rw [hp]
    unfold no_adjacent_free
    refine List.chain'_cons.mpr ⟨Or.inl ?_, List.chain'_singleton _⟩
    rw [is_free_set_magic, is_free_set_busy]

theorem fmem_inv_mk (ps : List FPage) (a b c d : Nat) (cm : Option Bool)
    (hh : fpage_is_free (ps.getD 0 ⟨0, 0⟩) = false) (hc : no_adjacent_free ps) :
    fmem_inv (Fmem.mk ps a b c d cm) := ⟨hh, hc⟩

theorem inv_alloc (s : Fmem) (n : Nat) (hinv : fmem_inv s) :
    fmem_inv (fmem_alloc s n).st := by
  obtain ⟨hhead, hchain⟩ := hinv
  simp only [fmem_alloc]
  by_cases hta : s.total_available < (if n < s.min_alloc then s.min_alloc else n)
  · rw [if_pos hta]
    exact ⟨hhead, hchain⟩
  rw [if_neg hta]
  cases hw : fmem_walk (if n < s.min_alloc then s.min_alloc else n) (s.pages.drop 1) with
  | poisoned => exact ⟨hhead, hchain⟩
  | noFit => exact ⟨hhead, hchain⟩
  | found j f =>
    dsimp only
    obtain ⟨hjlt, hjfree⟩ := fmem_walk_found _ _ _ _ hw
    have hlen1 : (s.pages.drop 1).length = s.pages.length - 1 := by simp
    have hi : j + 1 < s.pages.length := by omega
    have hfree : fpage_is_free (s.pages.getD (j + 1) ⟨0, 0⟩) = true := by
      rw [list_getD_drop] at hjfree
      rw [Nat.add_comm] at hjfree
      exact hjfree
    obtain ⟨P0, hP0⟩ : ∃ P0, s.pages.getD (j + 1) ⟨0, 0⟩ = P0 := ⟨_, rfl⟩
    obtain ⟨A, B, hAB, hAlen⟩ :
        ∃ A B, s.pages = A ++ P0 :: B ∧ A.length = j + 1 := by
      refine ⟨s.pages.take (j + 1), s.pages.drop (j + 2), ?_, ?_⟩
      · rw [← hP0]
        exact list_decomp s.pages (j + 1) ⟨0, 0⟩ hi
      · simp [List.length_take]
        omega
    have hAne : A ≠ [] := by
      intro h0
      rw [h0] at hAlen
      simp at hAlen
    have hheadA : fpage_is_free (A.getD 0 ⟨0, 0⟩) = false := by
      rw [hAB, list_getD_zero_append A _ _ hAne] at hhead
      exact hhead
    have hchainA : no_adjacent_free (A ++ P0 :: B) := by
      rw [hAB] at hchain
      exact hchain
    by_cases hf : f = FIT_AS_IS
    · rw [if_pos hf]
      have hset : s.pages.set (j + 1)
            (fpage_set_magic (fpage_set_busy (s.pages.getD (j + 1) ⟨0, 0⟩)) POISON)
          = A ++ fpage_set_magic (fpage_set_busy P0) POISON :: B := by
        rw [hP0, hAB, ← hAlen]
        have := list_set_append A (P0 :: B) 0 (fpage_set_magic (fpage_set_busy P0) POISON)
        simpa using this
      have hxbusy : fpage_is_free (fpage_set_magic (fpage_set_busy P0) POISON) = false := by
        rw [is_free_set_magic, is_free_set_busy]
      refine fmem_inv_mk _ _ _ _ _ _ ?_ ?_
      · rw [hset, list_getD_zero_append A _ _ hAne]
        exact hheadA
      · rw [hset]
        exact chain_set_busy A B _ hxbusy P0 hchainA
    · rw [if_neg hf]
      have hc21 : (fpage_carve_at s.pages (j + 1)
            (if n < s.min_alloc then s.min_alloc else n)).2.1
          = (fpage_carve P0 (if n < s.min_alloc then s.min_alloc else n)).2.1 := by
        simp only [fpage_carve_at]
        rw [hP0]
      have hcarve1 : (fpage_carve_at s.pages (j + 1)
            (if n < s.min_alloc then s.min_alloc else n)).1
          = A ++ (fpage_carve P0 (if n < s.min_alloc then s.min_alloc else n)).1
              :: (fpage_carve P0 (if n < s.min_alloc then s.min_alloc else n)).2.1 :: B := by
        simp only [fpage_carve_at]
        rw [hP0, hAB, ← hAlen]
        have h1 : (A ++ P0 :: B).take A.length = A := List.take_left A (P0 :: B)
        have h2 : (A ++ P0 :: B).drop (A.length + 1) = B := by
          have := list_drop_append A (P0 :: B) 1
          simpa using this
        rw [h1, h2]
      have hset2 : (A ++ (fpage_carve P0 (if n < s.min_alloc then s.min_alloc else n)).1
              :: (fpage_carve P0 (if n < s.min_alloc then s.min_alloc else n)).2.1 :: B).set
            (j + 1 + 1)
            (fpage_set_magic (fpage_set_busy
              (fpage_carve P0 (if n < s.min_alloc then s.min_alloc else n)).2.1) POISON)
          = A ++ (fpage_carve P0 (if n < s.min_alloc then s.min_alloc else n)).1
              :: fpage_set_magic (fpage_set_busy
                (fpage_carve P0 (if n < s.min_alloc then s.min_alloc else n)).2.1) POISON
              :: B := by
        rw [← hAlen]
        have := list_set_append A
          ((fpage_carve P0 (if n < s.min_alloc then s.min_alloc else n)).1
            :: (fpage_carve P0 (if n < s.min_alloc then s.min_alloc else n)).2.1 :: B) 1
          (fpage_set_magic (fpage_set_busy
            (fpage_carve P0 (if n < s.min_alloc then s.min_alloc else n)).2.1) POISON)
        simpa using this
      have hselbusy : fpage_is_free (fpage_set_magic (fpage_set_busy
            (fpage_carve P0 (if n < s.min_alloc then s.min_alloc else n)).2.1) POISON)
          = false := by
        rw [is_free_set_magic, is_free_set_busy]
      have hshr : fpage_is_free
            (fpage_carve P0 (if n < s.min_alloc then s.min_alloc else n)).1
          = fpage_is_free P0 := rfl
      refine fmem_inv_mk _ _ _ _ _ _ ?_ ?_
      · rw [hc21, hcarve1, hset2, list_getD_zero_append A _ _ hAne]
        exact hheadA
      · rw [hc21, hcarve1, hset2]
        exact chain_carve A B P0 _ _ hshr hselbusy hchainA

theorem circ_prev (i L : Nat) (h1 : 1 ≤ i) (h2 : i < L) : (i + L - 1) % L = i - 1 := by
  have h3 : i + L - 1 = (i - 1) + L := by omega
  rw [h3, Nat.add_mod_right]
  exact Nat.mod_eq_of_lt (by omega)

theorem free_merge_inv (C D : List FPage) (prev P : FPage)
    (hhead : fpage_is_free ((C ++ prev :: P :: D).getD 0 ⟨0, 0⟩) = false)
    (hchain : no_adjacent_free (C ++ prev :: P :: D)) :
    fpage_is_free ((fpage_merge ((C ++ prev :: P :: D).set (C.length + 1)
          (fpage_set_free ((C ++ prev :: P :: D).getD (C.length + 1) ⟨0, 0⟩)))
        (C.length + 1)).1.getD 0 ⟨0, 0⟩) = false
    ∧ no_adjacent_free
        (fpage_merge ((C ++ prev :: P :: D).set (C.length + 1)
          (fpage_set_free ((C ++ prev :: P :: D).getD (C.length + 1) ⟨0, 0⟩)))
        (C.length + 1)).1 := by
  have hgP : (C ++ prev :: P :: D).getD (C.length + 1) ⟨0, 0⟩ = P := by
    have := list_getD_append C (prev :: P :: D) ⟨0, 0⟩ 1
    simpa using this
  rw [hgP]
  have hset : (C ++ prev :: P :: D).set (C.length + 1) (fpage_set_free P)
      = C ++ prev :: fpage_set_free P :: D := by
    have := list_set_append C (prev :: P :: D) 1 (fpage_set_free P)
    simpa using this
  rw [hset]
  have hFP : fpage_is_free (fpage_set_free P) = true := is_free_set_free P
  unfold no_adjacent_free at hchain ⊢
  rw [List.chain'_append] at hchain
  obtain ⟨hcC, hcMid, hbd⟩ := hchain
  cases D with
  | nil =>
    cases hpf : fpage_is_free prev with
    | true =>
      have hCne : C ≠ [] := by
        intro h0
        rw [h0] at hhead
        simp only [List.nil_append, List.getD_cons_zero] at hhead
        rw [hpf] at hhead
        exact Bool.noConfusion hhead
      have hh0 : fpage_is_free ((C ++ [prev, fpage_set_free P]).getD 0 ⟨0, 0⟩) = false := by
        rw [list_getD_zero_cons C prev (fpage_set_free P :: []) (P :: [])]
        exact hhead
      rw [merge_tail_prev C prev (fpage_set_free P) hpf hh0]
      have hlastbusy : ∀ x ∈ C.getLast?, fpage_is_free x = false := by
        intro x hx
        rcases hbd x hx prev (by simp) with h | h
        · exact h
        · rw [hpf] at h
          exact Bool.noConfusion h
      constructor
      · rw [list_getD_zero_append C _ _ hCne]
        rw [list_getD_zero_append C _ _ hCne] at hh0
        exact hh0
      · rw [List.chain'_append]
        refine ⟨hcC, List.chain'_singleton _, ?_⟩
        intro x hx y hy
        simp only [List.head?_cons, Option.mem_some_iff] at hy
        subst hy
        exact Or.inl (hlastbusy x hx)
    | false =>
      have hL1 : (C ++ prev :: fpage_set_free P :: ([] : List FPage)).length
          = C.length + 2 := by simp
      have hpi1 : (C.length + 1 + (C ++ prev :: fpage_set_free P :: []).length - 1) %
          (C ++ prev :: fpage_set_free P :: []).length = C.length := by
        have := circ_prev (C.length + 1) (C ++ prev :: fpage_set_free P :: []).length
          (by omega) (by rw [hL1]; omega)
        simpa using this
      have hgpi1 : (C ++ prev :: fpage_set_free P :: []).getD C.length ⟨0, 0⟩ = prev := by
        have := list_getD_append C (prev :: fpage_set_free P :: []) ⟨0, 0⟩ 0
        simpa using this
      have hni1 : (C.length + 1 + 1) % (C ++ prev :: fpage_set_free P :: []).length = 0 := by
        rw [hL1]
        have h4 : C.length + 1 + 1 = C.length + 2 := by omega
        rw [h4]
        exact Nat.mod_self _
      have hg01 : fpage_is_free ((C ++ prev :: fpage_set_free P :: []).getD 0 ⟨0, 0⟩)
          = false := by
        rw [list_getD_zero_cons C prev (fpage_set_free P :: []) (P :: [])]
        exact hhead
      rw [merge_no_merge _ _ (by rw [hpi1, hgpi1]; exact hpf) (by rw [hni1]; exact hg01)]
      constructor
      · exact hg01
      · rw [List.chain'_append]
        refine ⟨hcC, ?_, ?_⟩
        · rw [List.chain'_cons]
          exact ⟨Or.inl hpf, List.chain'_singleton _⟩
        · intro x hx y hy
          simp only [List.head?_cons, Option.mem_some_iff] at hy
          subst hy
          exact hbd x hx prev (by simp)
  | cons nx B2 =>
    rw [List.chain'_cons, List.chain'_cons] at hcMid
    obtain ⟨hRpp, hRpn, hcnx⟩ := hcMid
    obtain ⟨hnxbd, hcB2⟩ := List.chain'_cons'.mp hcnx
    cases hpf : fpage_is_free prev with
    | true =>
      have hCne : C ≠ [] := by
        intro h0
        rw [h0] at hhead
        simp only [List.nil_append, List.getD_cons_zero] at hhead
        rw [hpf] at hhead
        exact Bool.noConfusion hhead
      have hheadC : fpage_is_free (C.getD 0 ⟨0, 0⟩) = false := by
        rw [list_getD_zero_append C _ _ hCne] at hhead
        exact hhead
      have hlastbusy : ∀ x ∈ C.getLast?, fpage_is_free x = false := by
        intro x hx
        rcases hbd x hx prev (by simp) with h | h
        · exact h
        · rw [hpf] at h
          exact Bool.noConfusion h
      cases hnf : fpage_is_free nx with
      | true =>
        rw [merge_three_way C B2 prev (fpage_set_free P) nx hpf hnf]
        constructor
        · rw [list_getD_zero_append C _ _ hCne]
          exact hheadC
        · rw [List.chain'_append]
          refine ⟨hcC, ?_, ?_⟩
          · rw [List.chain'_cons']
            refine ⟨?_, hcB2⟩
            intro y hy
            rcases hnxbd y hy with h | h
            · rw [hnf] at h
              exact Bool.noConfusion h
            · exact Or.inr h
          · intro x hx y hy
            simp only [List.head?_cons, Option.mem_some_iff] at hy
            subst hy
            exact Or.inl (hlastbusy x hx)
      | false =>
        rw [merge_prev_only C B2 prev (fpage_set_free P) nx hpf hnf]
        constructor
        · rw [list_getD_zero_append C _ _ hCne]
          exact hheadC
        · rw [List.chain'_append]
          refine ⟨hcC, ?_, ?_⟩
          · rw [List.chain'_cons]
            exact ⟨Or.inr hnf, hcnx⟩
          · intro x hx y hy
            simp only [List.head?_cons, Option.mem_some_iff] at hy
            subst hy
            exact Or.inl (hlastbusy x hx)
    | false =>
      cases hnf : fpage_is_free nx with
      | true =>
        rw [merge_next_only C B2 prev (fpage_set_free P) nx hpf hnf]
        constructor
        · rw [list_getD_zero_cons C prev
            ({ fpage_set_free P with size := ((fpage_set_free P).size + nx.size) % U32 } :: B2)
            (P :: nx :: B2)]
          exact hhead
        · rw [List.chain'_append]
          refine ⟨hcC, ?_, ?_⟩
          · rw [List.chain'_cons]
            refine ⟨Or.inl hpf, ?_⟩
            rw [List.chain'_cons']
            refine ⟨?_, hcB2⟩
            intro y hy
            rcases hnxbd y hy with h | h
            · rw [hnf] at h
              exact Bool.noConfusion h
            · exact Or.inr h
          · intro x hx y hy
            simp only [List.head?_cons, Option.mem_some_iff] at hy
            subst hy
            exact hbd x hx prev (by simp)
      | false =>
        have hL2 : (C ++ prev :: fpage_set_free P :: nx :: B2).length
            = C.length + B2.length + 3 := by
          simp [List.length_append, List.length_cons]
          omega
        have hpi2 : (C.length + 1 + (C ++ prev :: fpage_set_free P :: nx :: B2).length - 1) %
            (C ++ prev :: fpage_set_free P :: nx :: B2).length = C.length := by
          have := circ_prev (C.length + 1)
            (C ++ prev :: fpage_set_free P :: nx :: B2).length
            (by omega) (by rw [hL2]; omega)
          simpa using this
        have hgpi2 : (C ++ prev :: fpage_set_free P :: nx :: B2).getD C.length ⟨0, 0⟩
            = prev := by
          have := list_getD_append C (prev :: fpage_set_free P :: nx :: B2) ⟨0, 0⟩ 0
          simpa using this
        have hni2 : (C.length + 1 + 1) %
            (C ++ prev :: fpage_set_free P :: nx :: B2).length = C.length + 2 := by
          rw [hL2]
          exact Nat.mod_eq_of_lt (by omega)
        have hgni2 : (C ++ prev :: fpage_set_free P :: nx :: B2).getD (C.length + 2) ⟨0, 0⟩
            = nx := by
          have := list_getD_append C (prev :: fpage_set_free P :: nx :: B2) ⟨0, 0⟩ 2
          simpa using this
        rw [merge_no_merge _ _ (by rw [hpi2, hgpi2]; exact hpf)
          (by rw [hni2, hgni2]; exact hnf)]
        constructor
        · rw [list_getD_zero_cons C prev (fpage_set_free P :: nx :: B2) (P :: nx :: B2)]
          exact hhead
        · rw [List.chain'_append]
          refine ⟨hcC, ?_, ?_⟩
          · rw [List.chain'_cons]
            refine ⟨Or.inl hpf, ?_⟩
            rw [List.chain'_cons]
            exact ⟨Or.inr hnf, hcnx⟩
          · intro x hx y hy
            simp only [List.head?_cons, Option.mem_some_iff] at hy
            subst hy
            exact hbd x hx prev (by simp)

theorem inv_free (s : Fmem) (i : Nat) (hinv : fmem_inv s)
    (hi1 : 1 ≤ i) (hi : i < s.pages.length) :
    fmem_inv (fmem_free s i).st := by
  obtain ⟨hhead, hchain⟩ := hinv
  simp only [fmem_free]
  by_cases hmag : fpage_get_magic (s.pages.getD i ⟨0, 0⟩) ≠ POISON
  · rw [if_pos hmag]
    exact ⟨hhead, hchain⟩
  rw [if_neg hmag]
  obtain ⟨prev, hprev⟩ : ∃ x, s.pages.getD (i - 1) ⟨0, 0⟩ = x := ⟨_, rfl⟩
  obtain ⟨P0, hP0⟩ : ∃ x, s.pages.getD i ⟨0, 0⟩ = x := ⟨_, rfl⟩
  obtain ⟨C, D, hCD, hClen⟩ :
      ∃ C D, s.pages = C ++ prev :: P0 :: D ∧ C.length = i - 1 := by
    refine ⟨s.pages.take (i - 1), s.pages.drop (i + 1), ?_, ?_⟩
    · rw [← hprev, ← hP0]
      have h1 := list_decomp s.pages (i - 1) ⟨0, 0⟩ (by omega)
      have h2 : i - 1 + 1 = i := by omega
      rw [h2] at h1
      rw [list_drop_decomp s.pages i ⟨0, 0⟩ hi] at h1
      exact h1
    · simp [List.length_take]
      omega
  have hieq : i = C.length + 1 := by omega
  subst hieq
  have hhead' : fpage_is_free ((C ++ prev :: P0 :: D).getD 0 ⟨0, 0⟩) = false := by
    rw [← hCD]
    exact hhead
  have hchain' : no_adjacent_free (C ++ prev :: P0 :: D) := by
    rw [← hCD]
    exact hchain
  have hg : (C ++ prev :: P0 :: D).getD (C.length + 1) ⟨0, 0⟩ = P0 := by
    have := list_getD_append C (prev :: P0 :: D) ⟨0, 0⟩ 1
    simpa using this
  have hfmi := free_merge_inv C D prev P0 hhead' hchain'
  rw [hg] at hfmi
  refine fmem_inv_mk _ _ _ _ _ _ ?_ ?_
  · rw [hP0, hCD]
    exact hfmi.1
  · rw [hP0, hCD]
    exact hfmi.2

theorem inv_step (s : Fmem) (op : FOp) (hinv : fmem_inv s) :
    fmem_inv (fmem_step s op) := by
  cases op with
  | alloc n => exact inv_alloc s n hinv
  | free i =>
    simp only [fmem_step]
    split_ifs with hcond
    · exact inv_free s i hinv hcond.1 hcond.2
    · exact hinv

theorem inv_run (s : Fmem) (ops : List FOp) (hinv : fmem_inv s) :
    fmem_inv (fmem_run s ops) := by
  induction ops generalizing s with
  | nil => exact hinv
  | cons op ops ih => exact ih _ (inv_step s op hinv)

/-- Claim C3: starting from any freshly created region, after any
sequence of alloc and free operations no two adjacent pages are both
free — every free is immediately coalesced with free neighbours, and a
carve leaves the free remainder adjacent only to busy pages.  (A free
operation targets the page recovered from a client pointer, i.e. any
page after the head — including an already-free page, as in a double
free.) -/
theorem claim_C3_no_adjacent_free (L m : Nat) (c : Option Bool) (s0 : Fmem)
    (h : fmem_create_new L m c = .ok s0) (ops : List FOp) :
    no_adjacent_free (fmem_run s0 ops).pages :=
  (inv_run s0 ops (inv_create L m c s0 h)).2

/-- Claim C3, witness: a fresh 1024-byte region, followed by two carving
allocations, a free, a double free and another allocation, keeps the
no-adjacent-free-pages property. -/
theorem claim_C3_witness :
    fmem_create_new 1024 0 none
      = Except.ok ⟨[⟨3203366912, 96⟩, ⟨3203334144, 928⟩], 1024, 904, 0, 24, none⟩
    ∧ no_adjacent_free
        (fmem_run ⟨[⟨3203366912, 96⟩, ⟨3203334144, 928⟩], 1024, 904, 0, 24, none⟩
          [FOp.alloc 30, FOp.alloc 24, FOp.free 2, FOp.free 2, FOp.alloc 100]).pages :=
  ⟨by rfl,
   claim_C3_no_adjacent_free 1024 0 none
     ⟨[⟨3203366912, 96⟩, ⟨3203334144, 928⟩], 1024, 904, 0, 24, none⟩ (by rfl)
     [FOp.alloc 30, FOp.alloc 24, FOp.free 2, FOp.free 2, FOp.alloc 100]⟩
